import Mathlib

/-!
Shallow embedding of `src/installer.py` (class `AppInstaller`).

The installer is a linear pipeline of side-effecting steps.  Every external
effect (HTTP requests, the ZIP extractor, `shutil.rmtree`, a late exception
from the interactive prompt) is represented by an explicit outcome value in an
environment record, and each Python method becomes a pure Lean function from
that environment and the current filesystem state to its return value and the
updated state.  Directory contents are modelled as ordered association lists
of named entries (`EntryList`), mirroring `Path.iterdir` listings; file
contents (together with their metadata, which `shutil.copy2` preserves) are an
opaque `Nat` whose value doubles as the byte count that `os.path.getsize`
reports.
-/

namespace Installer

/-- `self.repo_name` from `AppInstaller.__init__` (installer.py line 22). -/
def repo_name : String := "alex-personal-hub"

/-- Name of the single top-level folder of the extracted archive,
`f"{self.repo_name}-main"` (installer.py line 186). -/
def extractedDirName : String := repo_name ++ "-main"

/-- Destination name of the downloaded archive, `app.zip` (installer.py line 173). -/
def appZipName : String := "app.zip"

/-- The cache-artifact directory name skipped by the copy step
(installer.py line 242). -/
def pycacheName : String := "__pycache__"

mutual
/-- A filesystem entry: a file with opaque content/metadata, or a directory. -/
inductive FTree where
  | file (data : Nat)
  | dir (children : EntryList)

/-- The ordered listing of a directory: named entries, as `Path.iterdir`
produces them. -/
inductive EntryList where
  | nil
  | cons (name : String) (tree : FTree) (rest : EntryList)
end

/-- Look up the entry with the given name in a directory listing. -/
def lookupE : EntryList → String → Option FTree
  | EntryList.nil, _ => none
  | EntryList.cons k v rest, n => if k = n then some v else lookupE rest n

/-- Create or replace the entry with the given name in a directory listing. -/
def setE : EntryList → String → FTree → EntryList
  | EntryList.nil, n, v => EntryList.cons n v EntryList.nil
  | EntryList.cons k w rest, n, v =>
    if k = n then EntryList.cons n v rest else EntryList.cons k w (setE rest n v)

/-- All names in the listing are distinct (true of any real directory listing). -/
def distinctNames : EntryList → Bool
  | EntryList.nil => true
  | EntryList.cons k _ rest => ((lookupE rest k).isNone && distinctNames rest)

/-- `os.path.getsize` on a staged file (installer.py line 160): the byte count
of the file at the given name, `0` when absent. -/
def getsize (staging : EntryList) (name : String) : Nat :=
  match lookupE staging name with
  | some (FTree.file n) => n
  | _ => 0

/-- Joint outcome of one `requests.get(..., stream=True)` together with
`raise_for_status` and the chunked write: either some exception was raised
(`exn`), or the body was written out in full (`ok bytes`). -/
inductive DownloadOutcome where
  | exn
  | ok (bytes : Nat)
deriving Repr, DecidableEq

/-- `AppInstaller.download_file` (installer.py lines 92-111).  On success the
destination file holds the downloaded bytes and `True` is returned; any
exception is caught, logged and converted to `False` (a partially written
destination on failure is not observed by any later step and is modelled as no
write). -/
def download_file (outcome : DownloadOutcome) (staging : EntryList) (dest : String) :
    Bool × EntryList :=
  match outcome with
  | DownloadOutcome.exn => (false, staging)
  | DownloadOutcome.ok n => (true, setE staging dest (FTree.file n))

/-- The manifest data the installer reads: the `files` mapping (relative path
to the optional `size` field read by `file_info.get('size', 0)`), plus the
informational `version` and `total_size` fields.  The per-file `hash` field is
never read by any code path and is omitted. -/
structure Manifest where
  files : List (String × Option Nat)
  version : String
  total_size : Nat
deriving Repr, DecidableEq

/-- The built-in default manifest set in `AppInstaller.__init__`
(installer.py lines 30-39): three file names, each with declared size 0. -/
def defaultManifest : Manifest :=
  { files := [("main_app.py", some 0), ("requirements.txt", some 0), ("media_config.json", some 0)],
    version := "1.0.0",
    total_size := 0 }

/-- A successfully parsed `response.json()` body for the manifest request:
`envelope` is the decoded top-level JSON object (viewed through the manifest
projection the installer applies to it), and `content` describes the optional
base64 `content` field: `none` when the key is absent, `some none` when
decoding or re-parsing the embedded content raises, `some (some m)` when it
parses to manifest `m`. -/
structure ParsedBody where
  envelope : Manifest
  content : Option (Option Manifest)
deriving Repr, DecidableEq

/-- Outcome of the manifest request (installer.py line 120): `exn` when
`requests.get` or `response.json()` raises, otherwise the HTTP status code
together with the parse outcome of the body. -/
inductive ManifestFetch where
  | exn (status : Option Nat)
  | resp (status : Nat) (parsed : ParsedBody)
deriving Repr, DecidableEq

/-- `AppInstaller.download_manifest` (installer.py lines 113-138), as a
function from the fetch outcome and the manifest currently set on the
installer to the returned flag and the manifest set afterwards.  Control flow
of the source: any raised exception is caught and `True` returned; a non-200
status skips the body and falls through to `return False`; on a 200 status
`self.manifest` is first assigned the whole decoded body, and then reassigned
the re-parsed embedded `content` when that key is present and parses. -/
def download_manifest : ManifestFetch → Manifest → Bool × Manifest
  | ManifestFetch.exn _, current => (true, current)
  | ManifestFetch.resp status parsed, current =>
    if status = 200 then
      match parsed.content with
      | none => (true, parsed.envelope)
      | some none => (true, parsed.envelope)
      | some (some m) => (true, m)
    else (false, current)

/-- `AppInstaller.check_internet` (installer.py lines 63-77): the probe either
raises (`none`: timeout or network error, caught by the bare `except`) or
completes with a status code.  Only a completed probe with status 200 yields
`True`. -/
def check_internet : Option Nat → Bool
  | none => false
  | some status => if status = 200 then true else false

mutual
/-- Effect of placing one extracted entry named `n` onto an existing
destination slot, following `shutil` semantics (installer.py lines 188-192):
`shutil.copy2` of a file onto an existing directory copies the file *into*
that directory under its base name; onto anything else it overwrites;
`shutil.copytree(..., dirs_exist_ok=True)` of a directory onto an existing
file raises (modelled as `error`); onto an existing directory it merges
recursively; onto an empty slot it produces an identical copy. -/
def mergeEntry (n : String) (t : FTree) (dst : Option FTree) : Except Unit FTree :=
  match t, dst with
  | FTree.file d, some (FTree.dir es) => Except.ok (FTree.dir (setE es n (FTree.file d)))
  | FTree.file d, _ => Except.ok (FTree.file d)
  | FTree.dir _, some (FTree.file _) => Except.error ()
  | FTree.dir gs, some (FTree.dir es) => (mergeChildren gs es).map FTree.dir
  | FTree.dir gs, none => Except.ok (FTree.dir gs)

/-- Recursive merge of a source listing into a destination listing, the
behaviour of `shutil.copytree(src, dst, dirs_exist_ok=True)`: each source
entry is placed onto the destination slot of the same name; destination
entries with no source counterpart are left in place. -/
def mergeChildren : EntryList → EntryList → Except Unit EntryList
  | EntryList.nil, ds => Except.ok ds
  | EntryList.cons n t rest, ds =>
    match mergeEntry n t (lookupE ds n) with
    | Except.error e => Except.error e
    | Except.ok v => mergeChildren rest (setE ds n v)
end

/-- The flattening loop of `AppInstaller.download_zip_alternative`
(installer.py lines 188-192): every entry of the extracted top-level folder is
copied one level up into the staging root (`copy2` for files,
`copytree(..., dirs_exist_ok=True)` for directories).  A raised `shutil`
error aborts the loop and is caught by the surrounding `except`, so the
function result becomes `False`. -/
def flattenLoop : EntryList → EntryList → Bool × EntryList
  | EntryList.nil, root => (true, root)
  | EntryList.cons n t rest, root =>
    match mergeEntry n t (lookupE root n) with
    | Except.error _ => (false, root)
    | Except.ok v => flattenLoop rest (setE root n v)

/-- External outcomes consumed by the primary acquisition path: the archive
download outcome, and the contents of the staging directory after
`zip_ref.extractall` returns (`none` when opening or extracting the archive
raises). -/
structure ZipEnv where
  zipDownload : DownloadOutcome
  extractResult : Option EntryList

/-- `AppInstaller.download_zip_alternative` (installer.py lines 168-198):
download the archive to `app.zip` in the staging directory, extract it there,
then flatten the single top-level project-named folder when present.  Failure
of the download, of the extraction, or of the flattening loop yields `False`;
when the extracted folder is absent the function still reports `True`. -/
def download_zip_alternative (e : ZipEnv) (staging : EntryList) : Bool × EntryList :=
  match download_file e.zipDownload staging appZipName with
  | (false, st1) => (false, st1)
  | (true, st1) =>
    match e.extractResult with
    | none => (false, st1)
    | some st2 =>
      match lookupE st2 extractedDirName with
      | some (FTree.dir ext) => flattenLoop ext st2
      | some (FTree.file _) => (false, st2)
      | none => (true, st2)

/-- Result of `AppInstaller.download_app_files`: the returned flag, the
staging contents afterwards, and the names for which a size-mismatch warning
was printed (installer.py line 163). -/
structure FallbackResult where
  ok : Bool
  staging : EntryList
  warnings : List String

/-- One iteration of the download loop of `AppInstaller.download_app_files`
(installer.py lines 152-163), folded over `(successful, staging, warnings)`:
a failed download leaves the counter untouched; a successful one stores the
file, then increments the counter exactly when `os.path.getsize` of the
destination equals the declared `file_info.get('size', 0)`, and otherwise
records the warning. -/
def fallbackStep (dl : String → DownloadOutcome) (acc : Nat × EntryList × List String)
    (fi : String × Option Nat) : Nat × EntryList × List String :=
  match download_file (dl fi.1) acc.2.1 fi.1 with
  | (false, st) => (acc.1, st, acc.2.2)
  | (true, st) =>
    if getsize st fi.1 = fi.2.getD 0 then (acc.1 + 1, st, acc.2.2)
    else (acc.1, st, acc.2.2 ++ [fi.1])

/-- `AppInstaller.download_app_files` (installer.py lines 140-166): with an
empty `files` mapping the function returns `False` at once; otherwise every
listed file is attempted in order and the function returns `successful > 0`. -/
def download_app_files (files : List (String × Option Nat)) (dl : String → DownloadOutcome)
    (staging : EntryList) : FallbackResult :=
  if files.length = 0 then { ok := false, staging := staging, warnings := [] }
  else
    let r := files.foldl (fallbackStep dl) (0, staging, [])
    { ok := decide (0 < r.1), staging := r.2.1, warnings := r.2.2 }

/-- The copy loop of `AppInstaller.copy_files_to_install_dir`
(installer.py lines 239-246): files are copied with `shutil.copy2` (onto an
existing same-named directory this copies *into* it); a directory named
`__pycache__` is skipped outright; any other directory first has a same-named
existing destination directory removed by `shutil.rmtree` and is then copied
fresh by `shutil.copytree`.  `shutil.rmtree` on a same-named plain *file*
raises, which the surrounding `except` converts into a `False` result with
the copies made so far left in place (no rollback). -/
def copyItems : EntryList → EntryList → Bool × EntryList
  | EntryList.nil, dst => (true, dst)
  | EntryList.cons n (FTree.file d) rest, dst =>
    match lookupE dst n with
    | some (FTree.dir es) => copyItems rest (setE dst n (FTree.dir (setE es n (FTree.file d))))
    | _ => copyItems rest (setE dst n (FTree.file d))
  | EntryList.cons n (FTree.dir cs) rest, dst =>
    if n = pycacheName then copyItems rest dst
    else
      match lookupE dst n with
      | some (FTree.file _) => (false, dst)
      | _ => copyItems rest (setE dst n (FTree.dir cs))

/-- `AppInstaller.copy_files_to_install_dir` (installer.py lines 233-252):
iterate over the staging directory and copy every entry into the install
target. -/
def copy_files_to_install_dir (staging : EntryList) (installDir : EntryList) :
    Bool × EntryList :=
  copyItems staging installDir

/-- `AppInstaller.cleanup` (installer.py lines 347-353), as a function from
(does the staging directory exist, does `shutil.rmtree` succeed) to whether
the staging directory exists afterwards.  A raised `rmtree` error is swallowed
by the bare `except`, leaving the directory in place. -/
def cleanup (tempExists : Bool) (rmtreeOk : Bool) : Bool :=
  if tempExists then (if rmtreeOk then false else true) else false

/-- All external outcomes consumed by one `AppInstaller.run` invocation. -/
structure Env where
  /-- Outcome of the connectivity probe (installer.py line 68). -/
  probe : Option Nat
  /-- Whether both `mkdir(exist_ok=True)` calls succeed (installer.py lines 84-85). -/
  mkdirOk : Bool
  /-- Whether the staging directory already exists before the run. -/
  tempPreexists : Bool
  /-- Contents of the staging directory when acquisition starts. -/
  staging0 : EntryList
  /-- Contents of the install target before the copy step. -/
  installDir0 : EntryList
  /-- Outcome of the manifest request. -/
  manifestFetch : ManifestFetch
  /-- Outcomes consumed by the primary acquisition path. -/
  zip : ZipEnv
  /-- Per-file download outcome for the fallback path, by file name. -/
  dl : String → DownloadOutcome
  /-- Whether an exception (e.g. `KeyboardInterrupt` at the final prompt) is
  raised after the copy step and caught by the top-level handler. -/
  lateExn : Bool
  /-- Whether `shutil.rmtree` succeeds during the final cleanup. -/
  rmtreeOk : Bool

/-- Observable outcome of one `AppInstaller.run` invocation. -/
structure RunResult where
  /-- The boolean `run` returns. -/
  success : Bool
  /-- Whether control reached the acquisition step (installer.py line 372). -/
  reachedAcquisition : Bool
  /-- Result of `download_zip_alternative`, `none` when it was never invoked. -/
  primaryResult : Option Bool
  /-- Result of `download_app_files`, `none` when it was never invoked. -/
  fallbackResult : Option Bool
  /-- Whether `run` returned `False` from the acquisition step
  (installer.py line 375). -/
  abortedAtAcquisition : Bool
  /-- The manifest set on the installer when acquisition starts. -/
  manifestUsed : Manifest
  /-- Contents of the install target at the end of the run. -/
  installDir : EntryList
  /-- Whether the staging directory exists at the end of the run. -/
  tempExistsAfter : Bool

/-- Tail of `AppInstaller.run` after acquisition succeeded (installer.py
lines 377-405): `install_dependencies` is invoked with its result ignored,
then the copy step (fatal on failure), the shortcut step (catches its own
exceptions), and the final prompt, where a late exception is caught by the
top-level handler and turns the result into `False`. -/
def run_after_acquisition (env : Env) (m : Manifest) (p f : Option Bool)
    (staging : EntryList) : RunResult :=
  match copy_files_to_install_dir staging env.installDir0 with
  | (false, d2) =>
    { success := false, reachedAcquisition := true, primaryResult := p, fallbackResult := f,
      abortedAtAcquisition := false, manifestUsed := m, installDir := d2,
      tempExistsAfter := true }
  | (true, d2) =>
    { success := !env.lateExn, reachedAcquisition := true, primaryResult := p,
      fallbackResult := f, abortedAtAcquisition := false, manifestUsed := m, installDir := d2,
      tempExistsAfter := true }

/-- The `try` block of `AppInstaller.run` (installer.py lines 359-414):
connectivity check and directory creation are fatal; the manifest step's
return value is ignored; the primary acquisition path is attempted, and on its
failure the fallback path, whose failure aborts the run.  The
`tempExistsAfter` field here is the staging directory's existence at the
terminal transition, before the `finally` cleanup runs. -/
def runBody (env : Env) : RunResult :=
  if check_internet env.probe = false then
    { success := false, reachedAcquisition := false, primaryResult := none,
      fallbackResult := none, abortedAtAcquisition := false, manifestUsed := defaultManifest,
      installDir := env.installDir0, tempExistsAfter := env.tempPreexists }
  else if env.mkdirOk = false then
    { success := false, reachedAcquisition := false, primaryResult := none,
      fallbackResult := none, abortedAtAcquisition := false, manifestUsed := defaultManifest,
      installDir := env.installDir0, tempExistsAfter := env.tempPreexists }
  else
    let m := (download_manifest env.manifestFetch defaultManifest).2
    match download_zip_alternative env.zip env.staging0 with
    | (true, st) => run_after_acquisition env m (some true) none st
    | (false, st) =>
      let f := download_app_files m.files env.dl st
      if f.ok = false then
        { success := false, reachedAcquisition := true, primaryResult := some false,
          fallbackResult := some false, abortedAtAcquisition := true, manifestUsed := m,
          installDir := env.installDir0, tempExistsAfter := true }
      else run_after_acquisition env m (some false) (some true) f.staging

/-- `AppInstaller.run` (installer.py lines 355-416): the `try` block followed
by the unconditional `finally: self.cleanup()`. -/
def run (env : Env) : RunResult :=
  let r := runBody env
  { r with tempExistsAfter := cleanup r.tempExistsAfter env.rmtreeOk }

/-- Environment of a run in which both acquisition paths fail: the archive
request raises, and every per-file request raises. -/
def envBothFail : Env :=
  { probe := some 200, mkdirOk := true, tempPreexists := false,
    staging0 := EntryList.nil, installDir0 := EntryList.nil,
    manifestFetch := ManifestFetch.exn none,
    zip := { zipDownload := DownloadOutcome.exn, extractResult := none },
    dl := fun _ => DownloadOutcome.exn, lateExn := false, rmtreeOk := true }

/-- Environment of a fully successful run (archive downloads and extracts),
with a succeeding cleanup. -/
def envPrimaryOk : Env :=
  { probe := some 200, mkdirOk := true, tempPreexists := false,
    staging0 := EntryList.nil, installDir0 := EntryList.nil,
    manifestFetch := ManifestFetch.exn none,
    zip := { zipDownload := DownloadOutcome.ok 10, extractResult := some EntryList.nil },
    dl := fun _ => DownloadOutcome.exn, lateExn := false, rmtreeOk := true }

/-- Environment of a run aborted at the connectivity check, with a stale
staging directory present and a failing `rmtree` during cleanup. -/
def envRmtreeFails : Env :=
  { probe := none, mkdirOk := true, tempPreexists := true,
    staging0 := EntryList.nil, installDir0 := EntryList.nil,
    manifestFetch := ManifestFetch.exn none,
    zip := { zipDownload := DownloadOutcome.exn, extractResult := none },
    dl := fun _ => DownloadOutcome.exn, lateExn := false, rmtreeOk := false }

/-- The decoded JSON envelope of a 200 manifest response, viewed through the
projection the installer applies to it (the GitHub contents-API file object
has no `files` key, so `manifest.get('files', {})` yields nothing). -/
def c3Envelope : Manifest := { files := [], version := "", total_size := 0 }

/-- A manifest fetch returning HTTP 200 whose base64 `content` field does not
decode/re-parse to valid JSON, so the inner parse raises after `self.manifest`
was already assigned the envelope (installer.py lines 122-128). -/
def c3Fetch : ManifestFetch :=
  ManifestFetch.resp 200 { envelope := c3Envelope, content := some none }

/-- A run whose manifest fetch hits the failed-parse corner `c3Fetch` and
whose primary acquisition path fails. -/
def envC3 : Env :=
  { probe := some 200, mkdirOk := true, tempPreexists := false,
    staging0 := EntryList.nil, installDir0 := EntryList.nil,
    manifestFetch := c3Fetch,
    zip := { zipDownload := DownloadOutcome.exn, extractResult := none },
    dl := fun _ => DownloadOutcome.ok 0, lateExn := false, rmtreeOk := true }

/-- Entry name used by concrete evaluation examples below. -/
def configName : String := "config"

/-- Entry name used by concrete evaluation examples below. -/
def keepName : String := "keep.txt"

/-- Entry name used by concrete evaluation examples below. -/
def newName : String := "new.txt"

/-- Contents of an extracted sub-directory in the concrete examples. -/
def gsW : EntryList := EntryList.cons newName (FTree.file 7) EntryList.nil

/-- A pre-existing destination sub-directory in the concrete examples. -/
def esW : EntryList :=
  EntryList.cons keepName (FTree.file 1) (EntryList.cons newName (FTree.file 2) EntryList.nil)

/-- An extracted top-level folder listing holding one directory entry. -/
def extW : EntryList := EntryList.cons configName (FTree.dir gsW) EntryList.nil

/-- A staging root already holding a same-named directory entry. -/
def rootW : EntryList := EntryList.cons configName (FTree.dir esW) EntryList.nil

/-- A staging listing for the copy step: one project directory plus a
`__pycache__` directory. -/
def stagingW : EntryList :=
  EntryList.cons configName (FTree.dir gsW)
    (EntryList.cons pycacheName (FTree.dir EntryList.nil) EntryList.nil)

/-- An already-populated install target with stale contents under the same
names. -/
def dstW : EntryList :=
  EntryList.cons configName (FTree.dir esW)
    (EntryList.cons pycacheName
      (FTree.dir (EntryList.cons keepName (FTree.file 4) EntryList.nil)) EntryList.nil)

theorem lookupE_setE_same : ∀ (l : EntryList) (n : String) (v : FTree),
    lookupE (setE l n v) n = some v
  | EntryList.nil, n, v => by simp [setE, lookupE]
  | EntryList.cons k w rest, n, v => by
    by_cases h : k = n <;> simp [setE, lookupE, h, lookupE_setE_same rest n v]

theorem lookupE_setE_ne : ∀ (l : EntryList) (n x : String) (v : FTree), n ≠ x →
    lookupE (setE l n v) x = lookupE l x
  | EntryList.nil, n, x, v, h => by simp [setE, lookupE, h]
  | EntryList.cons k w rest, n, x, v, h => by
    by_cases hk : k = n
    · subst hk
      simp [setE, lookupE, h]
    · simp only [setE, if_neg hk, lookupE]
      by_cases hx : k = x <;> simp [hx, lookupE_setE_ne rest n x v h]

theorem getsize_setE_same (st : EntryList) (f : String) (n : Nat) :
    getsize (setE st f (FTree.file n)) f = n := by
  simp [getsize, lookupE_setE_same]

/-- Claim C9: `check_internet` returns `True` exactly when the probe request
completes with HTTP status 200; every other completed status and every raised
exception yields `False`, and the function never raises (it is total). -/
theorem check_internet_iff_status_200 (probe : Option Nat) :
    check_internet probe = true ↔ probe = some 200 := by
  cases probe with
  | none => simp [check_internet]
  | some s => by_cases h : s = 200 <;> simp [check_internet, h]

theorem check_internet_iff_status_200_witness :
    check_internet (some 200) = true ∧ check_internet (some 500) ≠ true :=
  ⟨(check_internet_iff_status_200 (some 200)).mpr rfl,
   fun h => by simpa using (check_internet_iff_status_200 (some 500)).mp h⟩

theorem fallback_count_pos (dl : String → DownloadOutcome) :
    ∀ (files : List (String × Option Nat)) (acc : Nat × EntryList × List String),
      (0 < (files.foldl (fallbackStep dl) acc).1 ↔
        0 < acc.1 ∨ ∃ fi ∈ files, dl fi.1 = DownloadOutcome.ok (fi.2.getD 0))
  | [], acc => by simp
  | fi :: rest, acc => by
    rw [List.foldl_cons]
    cases hdl : dl fi.1 with
    | exn =>
      have hstep : fallbackStep dl acc fi = acc := by
        simp [fallbackStep, download_file, hdl]
      rw [hstep, fallback_count_pos dl rest acc]
      simp [hdl]
    | ok n =>
      by_cases hsz : n = fi.2.getD 0
      · have hstep : fallbackStep dl acc fi = (acc.1 + 1, setE acc.2.1 fi.1 (FTree.file n), acc.2.2) := by
          simp [fallbackStep, download_file, hdl, getsize_setE_same, hsz]
        rw [hstep, fallback_count_pos dl rest]
        simp [hdl, hsz]
      · have hstep : fallbackStep dl acc fi =
            (acc.1, setE acc.2.1 fi.1 (FTree.file n), acc.2.2 ++ [fi.1]) := by
          simp [fallbackStep, download_file, hdl, getsize_setE_same, hsz]
        rw [hstep, fallback_count_pos dl rest]
        simp [hdl, hsz]

/-- Claim C1: the fallback per-file acquisition returns failure on an empty
manifest file mapping, and otherwise returns success if and only if at least
one manifest-listed file downloads without error with downloaded byte count
equal to the manifest's declared size for that file. -/
theorem download_app_files_ok_iff (files : List (String × Option Nat))
    (dl : String → DownloadOutcome) (staging : EntryList) :
    (download_app_files files dl staging).ok = true ↔
      (files ≠ [] ∧ ∃ fi ∈ files, dl fi.1 = DownloadOutcome.ok (fi.2.getD 0)) := by
  by_cases h : files.length = 0
  · have hnil : files = [] := List.length_eq_zero.mp h
    subst hnil
    simp [download_app_files]
  · have hne : files ≠ [] := fun hc => h (by simp [hc])
    simp only [download_app_files, if_neg h, decide_eq_true_eq]
    rw [fallback_count_pos dl files (0, staging, [])]
    simp [hne]

theorem download_app_files_ok_iff_witness :
    (download_app_files [("main_app.py", some 3)]
        (fun _ => DownloadOutcome.ok 3) EntryList.nil).ok = true :=
  (download_app_files_ok_iff [("main_app.py", some 3)]
      (fun _ => DownloadOutcome.ok 3) EntryList.nil).mpr
    (by refine ⟨by simp, ("main_app.py", some 3), by simp, rfl⟩)

theorem fallback_staging_frame (dl : String → DownloadOutcome) :
    ∀ (files : List (String × Option Nat)) (acc : Nat × EntryList × List String) (x : String),
      (∀ fi ∈ files, fi.1 ≠ x) →
      lookupE (files.foldl (fallbackStep dl) acc).2.1 x = lookupE acc.2.1 x
  | [], acc, x, _ => by simp
  | fi :: rest, acc, x, h => by
    rw [List.foldl_cons]
    have hx : fi.1 ≠ x := h fi (by simp)
    have hrest : ∀ fj ∈ rest, fj.1 ≠ x := fun fj hj => h fj (by simp [hj])
    have key : lookupE (fallbackStep dl acc fi).2.1 x = lookupE acc.2.1 x := by
      cases hdl : dl fi.1 with
      | exn => simp [fallbackStep, download_file, hdl]
      | ok n =>
        by_cases hsz : getsize (setE acc.2.1 fi.1 (FTree.file n)) fi.1 = fi.2.getD 0 <;>
          simp [fallbackStep, download_file, hdl, hsz, lookupE_setE_ne _ _ _ _ hx]
    rw [fallback_staging_frame dl rest _ x hrest, key]

theorem fallback_staging_stored (dl : String → DownloadOutcome) :
    ∀ (files : List (String × Option Nat)) (acc : Nat × EntryList × List String)
      (fi : String × Option Nat) (n : Nat),
      (files.map Prod.fst).Nodup → fi ∈ files → dl fi.1 = DownloadOutcome.ok n →
      lookupE (files.foldl (fallbackStep dl) acc).2.1 fi.1 = some (FTree.file n)
  | [], _, fi, n, _, hmem, _ => absurd hmem (by simp)
  | fj :: rest, acc, fi, n, hnd, hmem, hdl => by
    rw [List.foldl_cons]
    rcases List.mem_cons.mp hmem with heq | hmem2
    · subst heq
      have hnotin : fi.1 ∉ rest.map Prod.fst := by
        rw [List.map_cons, List.nodup_cons] at hnd
        exact hnd.1
      have hrest : ∀ fk ∈ rest, fk.1 ≠ fi.1 := fun fk hk hc =>
        hnotin (hc ▸ List.mem_map_of_mem Prod.fst hk)
      have hstep : lookupE (fallbackStep dl acc fi).2.1 fi.1 = some (FTree.file n) := by
        by_cases hsz : getsize (setE acc.2.1 fi.1 (FTree.file n)) fi.1 = fi.2.getD 0 <;>
          simp [fallbackStep, download_file, hdl, hsz, lookupE_setE_same]
      rw [fallback_staging_frame dl rest _ _ hrest, hstep]
    · have hnd2 : (rest.map Prod.fst).Nodup := by
        rw [List.map_cons, List.nodup_cons] at hnd
        exact hnd.2
      exact fallback_staging_stored dl rest _ fi n hnd2 hmem2 hdl

theorem fallback_warnings_mono (dl : String → DownloadOutcome) :
    ∀ (files : List (String × Option Nat)) (acc : Nat × EntryList × List String) (x : String),
      x ∈ acc.2.2 → x ∈ (files.foldl (fallbackStep dl) acc).2.2
  | [], acc, x, h => by simpa using h
  | fi :: rest, acc, x, h => by
    rw [List.foldl_cons]
    apply fallback_warnings_mono dl rest
    cases hdl : dl fi.1 with
    | exn => simpa [fallbackStep, download_file, hdl] using h
    | ok n =>
      by_cases hsz : getsize (setE acc.2.1 fi.1 (FTree.file n)) fi.1 = fi.2.getD 0
      · simpa [fallbackStep, download_file, hdl, hsz] using h
      · simp only [fallbackStep, download_file, hdl, if_neg hsz]
        exact List.mem_append_left _ h

theorem fallback_warning_logged (dl : String → DownloadOutcome) :
    ∀ (files : List (String × Option Nat)) (acc : Nat × EntryList × List String)
      (fi : String × Option Nat) (n : Nat),
      fi ∈ files → dl fi.1 = DownloadOutcome.ok n → n ≠ fi.2.getD 0 →
      fi.1 ∈ (files.foldl (fallbackStep dl) acc).2.2
  | [], _, fi, n, hmem, _, _ => absurd hmem (by simp)
  | fj :: rest, acc, fi, n, hmem, hdl, hsz => by
    rw [List.foldl_cons]
    rcases List.mem_cons.mp hmem with heq | hmem2
    · subst heq
      apply fallback_warnings_mono
      have hg : getsize (setE acc.2.1 fi.1 (FTree.file n)) fi.1 = n := getsize_setE_same _ _ _
      simp only [fallbackStep, download_file, hdl, hg, if_neg hsz]
      exact List.mem_append_right _ (by simp)
    · exact fallback_warning_logged dl rest _ fi n hmem2 hdl hsz

/-- Claim C8: during fallback acquisition, every file whose download completes
is kept in the staging area with its downloaded bytes — even when the byte
count differs from the manifest's declared size — the loop continues over the
remaining manifest files, and every size mismatch is recorded by a warning. -/
theorem fallback_mismatch_kept_and_logged (files : List (String × Option Nat))
    (dl : String → DownloadOutcome) (staging : EntryList)
    (hnd : (files.map Prod.fst).Nodup) :
    ∀ fi ∈ files, ∀ n : Nat, dl fi.1 = DownloadOutcome.ok n →
      lookupE (download_app_files files dl staging).staging fi.1 = some (FTree.file n) ∧
      (n ≠ fi.2.getD 0 → fi.1 ∈ (download_app_files files dl staging).warnings) := by
  intro fi hmem n hdl
  have hlen : ¬ files.length = 0 := by
    cases files with
    | nil => simp at hmem
    | cons a l => simp
  constructor
  · simp only [download_app_files, if_neg hlen]
    exact fallback_staging_stored dl files _ fi n hnd hmem hdl
  · intro hsz
    simp only [download_app_files, if_neg hlen]
    exact fallback_warning_logged dl files _ fi n hmem hdl hsz

theorem fallback_mismatch_kept_and_logged_witness :
    lookupE (download_app_files [("main_app.py", some 5), ("requirements.txt", some 0)]
        (fun _ => DownloadOutcome.ok 3) EntryList.nil).staging ("main_app.py")
      = some (FTree.file 3) ∧
    ("main_app.py") ∈ (download_app_files [("main_app.py", some 5), ("requirements.txt", some 0)]
        (fun _ => DownloadOutcome.ok 3) EntryList.nil).warnings := by
  have h := fallback_mismatch_kept_and_logged
      [("main_app.py", some 5), ("requirements.txt", some 0)]
      (fun _ => DownloadOutcome.ok 3) EntryList.nil (by simp)
      ("main_app.py", some 5) (by simp) 3 rfl
  exact ⟨h.1, h.2 (by decide)⟩

theorem run_policy_aux (env : Env) :
    ((runBody env).reachedAcquisition = true → (runBody env).primaryResult.isSome = true)
  ∧ ((runBody env).fallbackResult.isSome = true → (runBody env).primaryResult = some false)
  ∧ ((runBody env).primaryResult = some true → (runBody env).fallbackResult = none)
  ∧ ((runBody env).primaryResult = some false → (runBody env).fallbackResult.isSome = true)
  ∧ ((runBody env).abortedAtAcquisition = true ↔
      ((runBody env).primaryResult = some false ∧ (runBody env).fallbackResult = some false))
  ∧ ((runBody env).abortedAtAcquisition = true → (runBody env).success = false) := by
  unfold runBody run_after_acquisition
  split
  · simp
  · split
    · simp
    · split
      · split <;> simp
      · dsimp only
        split
        · simp
        · split <;> simp

/-- Claim C2: the primary full-archive acquisition is attempted whenever the
run reaches the acquisition step; the fallback per-file acquisition is invoked
if and only if the primary reports failure — never when the primary succeeds —
and the run aborts at the acquisition step exactly when both paths fail. -/
theorem run_acquisition_policy (env : Env) :
    ((run env).reachedAcquisition = true → (run env).primaryResult.isSome = true)
  ∧ ((run env).fallbackResult.isSome = true → (run env).primaryResult = some false)
  ∧ ((run env).primaryResult = some true → (run env).fallbackResult = none)
  ∧ ((run env).primaryResult = some false → (run env).fallbackResult.isSome = true)
  ∧ ((run env).abortedAtAcquisition = true ↔
      ((run env).primaryResult = some false ∧ (run env).fallbackResult = some false))
  ∧ ((run env).abortedAtAcquisition = true → (run env).success = false) :=
  run_policy_aux env

theorem run_acquisition_policy_witness :
    (run envBothFail).abortedAtAcquisition = true ∧ (run envBothFail).success = false := by
  have h := run_acquisition_policy envBothFail
  have hab : (run envBothFail).abortedAtAcquisition = true :=
    (h.2.2.2.2.1).mpr ⟨rfl, rfl⟩
  exact ⟨hab, h.2.2.2.2.2 hab⟩

theorem cleanup_true_removes (e : Bool) : cleanup e true = false := by
  cases e <;> rfl

/-- Claim C5: on every terminal transition of the run — success, fatal failure
at any step, uncaught exception, keyboard interrupt — the final cleanup runs
and (its `rmtree` primitive succeeding) the staging directory does not exist
after the run completes. -/
theorem run_cleanup_removes_staging (env : Env) (h : env.rmtreeOk = true) :
    (run env).tempExistsAfter = false := by
  have hr : (run env).tempExistsAfter = cleanup (runBody env).tempExistsAfter env.rmtreeOk := rfl
  rw [hr, h, cleanup_true_removes]

theorem run_cleanup_removes_staging_witness :
    envPrimaryOk.rmtreeOk = true ∧ (run envPrimaryOk).tempExistsAfter = false :=
  ⟨rfl, run_cleanup_removes_staging envPrimaryOk rfl⟩

/-- Claim C10: cleanup swallows every removal error (the bare `except` leaves
the staging directory in place and raises nothing), the run's returned
success/failure outcome never depends on the cleanup outcome, and with a
failing `rmtree` the staging directory can still exist after the run. -/
theorem cleanup_swallows_errors :
    (∀ e : Bool, cleanup e false = e)
  ∧ (∀ (env : Env) (b c : Bool),
      (run { env with rmtreeOk := b }).success = (run { env with rmtreeOk := c }).success)
  ∧ envRmtreeFails.rmtreeOk = false ∧ (run envRmtreeFails).tempExistsAfter = true := by
  refine ⟨?_, ?_, rfl, rfl⟩
  · intro e
    cases e <;> rfl
  · intro env b c
    cases env
    rfl

theorem run_reaches_acquisition (env : Env) (h1 : check_internet env.probe = true)
    (h2 : env.mkdirOk = true) : (run env).reachedAcquisition = true := by
  have hr : (run env).reachedAcquisition = (runBody env).reachedAcquisition := rfl
  rw [hr]
  unfold runBody
  rw [if_neg (by simp [h1]), if_neg (by simp [h2])]
  unfold run_after_acquisition
  split
  · split <;> rfl
  · dsimp only
    split
    · rfl
    · split <;> rfl

/-- Claim C3 (code bug): the run does continue to the acquisition step for
every manifest-fetch outcome, but on a 200 response whose embedded `content`
fails to decode or re-parse, the manifest afterwards is the already-assigned
JSON envelope — not the built-in default the claim (and the code's own
"Using default file list" message) promises — and the run proceeds with that
envelope as its manifest. -/
theorem download_manifest_envelope_leak :
    (∀ mf : ManifestFetch,
      (run { envC3 with manifestFetch := mf }).reachedAcquisition = true)
  ∧ (download_manifest c3Fetch defaultManifest).1 = true
  ∧ (download_manifest c3Fetch defaultManifest).2 = c3Envelope
  ∧ (download_manifest c3Fetch defaultManifest).2 ≠ defaultManifest
  ∧ (run envC3).manifestUsed = c3Envelope := by
  refine ⟨?_, rfl, rfl, by decide, rfl⟩
  intro mf
  exact run_reaches_acquisition { envC3 with manifestFetch := mf } rfl rfl

/-- Claim C7: every exception raised during the primary path's archive
download or ZIP extraction is caught and converted into a `False` return value
of `download_file` / `download_zip_alternative` (both total functions, so
nothing propagates as an unhandled crash); a raised `shutil` error during the
flattening loop likewise yields `False`. -/
theorem acquisition_exceptions_become_false :
    (∀ (st : EntryList) (dest : String), (download_file DownloadOutcome.exn st dest).1 = false)
  ∧ (∀ (n : Nat) (st : EntryList) (dest : String),
      (download_file (DownloadOutcome.ok n) st dest).1 = true)
  ∧ (∀ (e : ZipEnv) (st : EntryList), e.zipDownload = DownloadOutcome.exn →
      (download_zip_alternative e st).1 = false)
  ∧ (∀ (e : ZipEnv) (st : EntryList), e.extractResult = none →
      (download_zip_alternative e st).1 = false)
  ∧ (∀ (b : Nat) (st st2 ext root2 : EntryList),
      lookupE st2 extractedDirName = some (FTree.dir ext) →
      flattenLoop ext st2 = (false, root2) →
      (download_zip_alternative
        { zipDownload := DownloadOutcome.ok b, extractResult := some st2 } st).1 = false) := by
  refine ⟨fun st dest => rfl, fun n st dest => rfl, ?_, ?_, ?_⟩
  · intro e st h
    simp [download_zip_alternative, download_file, h]
  · intro e st h
    cases hz : e.zipDownload <;> simp [download_zip_alternative, download_file, h, hz]
  · intro b st st2 ext root2 hlook hflat
    simp [download_zip_alternative, download_file, hlook, hflat]

theorem acquisition_exceptions_become_false_witness :
    (download_file DownloadOutcome.exn EntryList.nil appZipName).1 = false ∧
    (download_zip_alternative { zipDownload := DownloadOutcome.exn, extractResult := none }
        EntryList.nil).1 = false := by
  have h := acquisition_exceptions_become_false
  exact ⟨h.1 EntryList.nil appZipName,
    h.2.2.1 { zipDownload := DownloadOutcome.exn, extractResult := none } EntryList.nil rfl⟩

theorem merge_frame : ∀ (gs es m : EntryList) (n : String),
    mergeChildren gs es = Except.ok m → lookupE gs n = none → lookupE m n = lookupE es n
  | EntryList.nil, es, m, n, hok, _ => by
    simp only [mergeChildren, Except.ok.injEq] at hok
    rw [hok]
  | EntryList.cons k t rest, es, m, n, hok, hno => by
    have hk : ¬ k = n := by
      intro hc
      simp [lookupE, hc] at hno
    have hrest : lookupE rest n = none := by simpa [lookupE, hk] using hno
    cases hme : mergeEntry k t (lookupE es k) with
    | error e => simp [mergeChildren, hme] at hok
    | ok v =>
      simp only [mergeChildren, hme] at hok
      rw [merge_frame rest (setE es k v) m n hok hrest, lookupE_setE_ne es k n v hk]

theorem merge_file_overwrite : ∀ (gs es m : EntryList) (n : String) (d : Nat),
    distinctNames gs = true → mergeChildren gs es = Except.ok m →
    lookupE gs n = some (FTree.file d) →
    (∀ es2, lookupE es n ≠ some (FTree.dir es2)) →
    lookupE m n = some (FTree.file d)
  | EntryList.nil, es, m, n, d, _, _, hlook, _ => by simp [lookupE] at hlook
  | EntryList.cons k t rest, es, m, n, d, hdn, hok, hlook, hnd => by
    simp only [distinctNames, Bool.and_eq_true, Option.isNone_iff_eq_none] at hdn
    by_cases hk : k = n
    · subst hk
      have ht : t = FTree.file d := by simpa [lookupE] using hlook
      subst ht
      have hme : mergeEntry k (FTree.file d) (lookupE es k) = Except.ok (FTree.file d) := by
        cases hes : lookupE es k with
        | none => rfl
        | some t2 =>
          cases t2 with
          | file d2 => rfl
          | dir es2 => exact absurd hes (hnd es2)
      simp only [mergeChildren, hme] at hok
      rw [merge_frame rest (setE es k (FTree.file d)) m k hok hdn.1, lookupE_setE_same]
    · have hlook2 : lookupE rest n = some (FTree.file d) := by simpa [lookupE, hk] using hlook
      cases hme : mergeEntry k t (lookupE es k) with
      | error e => simp [mergeChildren, hme] at hok
      | ok v =>
        simp only [mergeChildren, hme] at hok
        have hnd2 : ∀ es2, lookupE (setE es k v) n ≠ some (FTree.dir es2) := by
          intro es2
          rw [lookupE_setE_ne es k n v hk]
          exact hnd es2
        exact merge_file_overwrite rest (setE es k v) m n d hdn.2 hok hlook2 hnd2

theorem flatten_frame : ∀ (ext root root2 : EntryList) (n : String),
    flattenLoop ext root = (true, root2) → lookupE ext n = none →
    lookupE root2 n = lookupE root n
  | EntryList.nil, root, root2, n, hfl, _ => by
    simp only [flattenLoop, Prod.mk.injEq, true_and] at hfl
    rw [hfl]
  | EntryList.cons k t rest, root, root2, n, hfl, hno => by
    have hk : ¬ k = n := by
      intro hc
      simp [lookupE, hc] at hno
    have hrest : lookupE rest n = none := by simpa [lookupE, hk] using hno
    cases hme : mergeEntry k t (lookupE root k) with
    | error e => simp [flattenLoop, hme] at hfl
    | ok v =>
      simp only [flattenLoop, hme] at hfl
      rw [flatten_frame rest (setE root k v) root2 n hfl hrest, lookupE_setE_ne root k n v hk]

theorem flatten_hit : ∀ (ext root root2 : EntryList) (n : String) (t : FTree),
    distinctNames ext = true → flattenLoop ext root = (true, root2) →
    lookupE ext n = some t →
    ∃ v, mergeEntry n t (lookupE root n) = Except.ok v ∧ lookupE root2 n = some v
  | EntryList.nil, _, _, n, t, _, _, hlook => by simp [lookupE] at hlook
  | EntryList.cons k u rest, root, root2, n, t, hdn, hfl, hlook => by
    simp only [distinctNames, Bool.and_eq_true, Option.isNone_iff_eq_none] at hdn
    by_cases hk : k = n
    · subst hk
      have ht : u = t := by simpa [lookupE] using hlook
      subst ht
      cases hme : mergeEntry k u (lookupE root k) with
      | error e => simp [flattenLoop, hme] at hfl
      | ok v =>
        simp only [flattenLoop, hme] at hfl
        exact ⟨v, rfl,
          by rw [flatten_frame rest (setE root k v) root2 k hfl hdn.1, lookupE_setE_same]⟩
    · have hlook2 : lookupE rest n = some t := by simpa [lookupE, hk] using hlook
      cases hme : mergeEntry k u (lookupE root k) with
      | error e => simp [flattenLoop, hme] at hfl
      | ok v =>
        simp only [flattenLoop, hme] at hfl
        have ih := flatten_hit rest (setE root k v) root2 n t hdn.2 hfl hlook2
        rwa [lookupE_setE_ne root k n v hk] at ih

/-- Claim C4: after the primary path extracts the archive into the staging
area, the flattening loop places every entry of the single top-level
project-named folder one level up into the staging root; a directory entry
that already exists at the destination is merged by
`copytree(dirs_exist_ok=True)` rather than replaced wholesale — existing
destination entries absent from the new tree are preserved while same-named
files from the new tree overwrite — and entries with no same-named
destination arrive as copies. -/
theorem flatten_merges_into_staging_root :
    (∀ (b : Nat) (st st2 ext : EntryList),
      lookupE st2 extractedDirName = some (FTree.dir ext) →
      download_zip_alternative
          { zipDownload := DownloadOutcome.ok b, extractResult := some st2 } st
        = flattenLoop ext st2)
  ∧ (∀ (ext root root2 : EntryList), distinctNames ext = true →
      flattenLoop ext root = (true, root2) →
        (∀ n, lookupE ext n = none → lookupE root2 n = lookupE root n)
      ∧ (∀ n gs es, lookupE ext n = some (FTree.dir gs) →
          lookupE root n = some (FTree.dir es) →
          ∃ m, mergeChildren gs es = Except.ok m ∧ lookupE root2 n = some (FTree.dir m))
      ∧ (∀ n gs, lookupE ext n = some (FTree.dir gs) → lookupE root n = none →
          lookupE root2 n = some (FTree.dir gs))
      ∧ (∀ n d, lookupE ext n = some (FTree.file d) →
          (∀ es, lookupE root n ≠ some (FTree.dir es)) →
          lookupE root2 n = some (FTree.file d)))
  ∧ (∀ (gs es m : EntryList), mergeChildren gs es = Except.ok m →
        (∀ n, lookupE gs n = none → lookupE m n = lookupE es n)
      ∧ (∀ n d, distinctNames gs = true → lookupE gs n = some (FTree.file d) →
          (∀ es2, lookupE es n ≠ some (FTree.dir es2)) →
          lookupE m n = some (FTree.file d))) := by
  refine ⟨?_, ?_, ?_⟩
  · intro b st st2 ext hlook
    simp [download_zip_alternative, download_file, hlook]
  · intro ext root root2 hdn hfl
    refine ⟨fun n hno => flatten_frame ext root root2 n hfl hno, ?_, ?_, ?_⟩
    · intro n gs es hlext hlroot
      obtain ⟨v, hme, hv⟩ := flatten_hit ext root root2 n (FTree.dir gs) hdn hfl hlext
      rw [hlroot] at hme
      cases hmc : mergeChildren gs es with
      | error e => simp [mergeEntry, hmc, Except.map] at hme
      | ok m2 =>
        simp only [mergeEntry, hmc, Except.map] at hme
        obtain rfl : FTree.dir m2 = v := by simpa using hme
        exact ⟨m2, rfl, hv⟩
    · intro n gs hlext hlroot
      obtain ⟨v, hme, hv⟩ := flatten_hit ext root root2 n (FTree.dir gs) hdn hfl hlext
      rw [hlroot] at hme
      obtain rfl : FTree.dir gs = v := by simpa [mergeEntry] using hme
      exact hv
    · intro n d hlext hnd
      obtain ⟨v, hme, hv⟩ := flatten_hit ext root root2 n (FTree.file d) hdn hfl hlext
      have hvv : v = FTree.file d := by
        cases hes : lookupE root n with
        | none =>
          rw [hes] at hme
          simpa [mergeEntry] using hme.symm
        | some t2 =>
          cases t2 with
          | file d2 =>
            rw [hes] at hme
            simpa [mergeEntry] using hme.symm
          | dir es2 => exact absurd hes (hnd es2)
      rw [hv, hvv]
  · intro gs es m hok
    exact ⟨fun n hno => merge_frame gs es m n hok hno,
      fun n d hdn hl hnd => merge_file_overwrite gs es m n d hdn hok hl hnd⟩

theorem flatten_merges_into_staging_root_witness :
    ∃ m, mergeChildren gsW esW = Except.ok m ∧
      lookupE (flattenLoop extW rootW).2 configName = some (FTree.dir m) := by
  have h := flatten_merges_into_staging_root.2.1 extW rootW (flattenLoop extW rootW).2 rfl rfl
  exact h.2.1 configName gsW esW rfl rfl

theorem copy_frame : ∀ (staging dst d2 : EntryList) (n : String),
    copyItems staging dst = (true, d2) → lookupE staging n = none →
    lookupE d2 n = lookupE dst n
  | EntryList.nil, dst, d2, n, hcp, _ => by
    simp only [copyItems, Prod.mk.injEq, true_and] at hcp
    rw [hcp]
  | EntryList.cons k t rest, dst, d2, n, hcp, hno => by
    have hk : ¬ k = n := by
      intro hc
      simp [lookupE, hc] at hno
    have hrest : lookupE rest n = none := by simpa [lookupE, hk] using hno
    cases t with
    | file d =>
      cases hdk : lookupE dst k with
      | none =>
        simp only [copyItems, hdk] at hcp
        rw [copy_frame rest _ d2 n hcp hrest, lookupE_setE_ne dst k n _ hk]
      | some u =>
        cases u with
        | file d0 =>
          simp only [copyItems, hdk] at hcp
          rw [copy_frame rest _ d2 n hcp hrest, lookupE_setE_ne dst k n _ hk]
        | dir es =>
          simp only [copyItems, hdk] at hcp
          rw [copy_frame rest _ d2 n hcp hrest, lookupE_setE_ne dst k n _ hk]
    | dir cs =>
      by_cases hpy : k = pycacheName
      · simp only [copyItems, if_pos hpy] at hcp
        exact copy_frame rest dst d2 n hcp hrest
      · cases hdk : lookupE dst k with
        | none =>
          simp only [copyItems, if_neg hpy, hdk] at hcp
          rw [copy_frame rest _ d2 n hcp hrest, lookupE_setE_ne dst k n _ hk]
        | some u =>
          cases u with
          | file d0 =>
            simp only [copyItems, if_neg hpy, hdk] at hcp
            exact absurd hcp (by simp)
          | dir es =>
            simp only [copyItems, if_neg hpy, hdk] at hcp
            rw [copy_frame rest _ d2 n hcp hrest, lookupE_setE_ne dst k n _ hk]

theorem copy_dir_exact : ∀ (staging dst d2 : EntryList) (n : String) (cs : EntryList),
    distinctNames staging = true → copyItems staging dst = (true, d2) →
    lookupE staging n = some (FTree.dir cs) → ¬ n = pycacheName →
    lookupE d2 n = some (FTree.dir cs)
  | EntryList.nil, _, _, n, cs, _, _, hlook, _ => by simp [lookupE] at hlook
  | EntryList.cons k t rest, dst, d2, n, cs, hdn, hcp, hlook, hnp => by
    simp only [distinctNames, Bool.and_eq_true, Option.isNone_iff_eq_none] at hdn
    by_cases hk : k = n
    · subst hk
      have ht : t = FTree.dir cs := by simpa [lookupE] using hlook
      subst ht
      cases hdk : lookupE dst k with
      | none =>
        simp only [copyItems, if_neg hnp, hdk] at hcp
        rw [copy_frame rest _ d2 k hcp hdn.1, lookupE_setE_same]
      | some u =>
        cases u with
        | file d0 =>
          simp only [copyItems, if_neg hnp, hdk] at hcp
          exact absurd hcp (by simp)
        | dir es =>
          simp only [copyItems, if_neg hnp, hdk] at hcp
          rw [copy_frame rest _ d2 k hcp hdn.1, lookupE_setE_same]
    · have hlook2 : lookupE rest n = some (FTree.dir cs) := by simpa [lookupE, hk] using hlook
      cases t with
      | file d =>
        cases hdk : lookupE dst k with
        | none =>
          simp only [copyItems, hdk] at hcp
          exact copy_dir_exact rest _ d2 n cs hdn.2 hcp hlook2 hnp
        | some u =>
          cases u with
          | file d0 =>
            simp only [copyItems, hdk] at hcp
            exact copy_dir_exact rest _ d2 n cs hdn.2 hcp hlook2 hnp
          | dir es =>
            simp only [copyItems, hdk] at hcp
            exact copy_dir_exact rest _ d2 n cs hdn.2 hcp hlook2 hnp
      | dir cs0 =>
        by_cases hpy : k = pycacheName
        · simp only [copyItems, if_pos hpy] at hcp
          exact copy_dir_exact rest dst d2 n cs hdn.2 hcp hlook2 hnp
        · cases hdk : lookupE dst k with
          | none =>
            simp only [copyItems, if_neg hpy, hdk] at hcp
            exact copy_dir_exact rest _ d2 n cs hdn.2 hcp hlook2 hnp
          | some u =>
            cases u with
            | file d0 =>
              simp only [copyItems, if_neg hpy, hdk] at hcp
              exact absurd hcp (by simp)
            | dir es =>
              simp only [copyItems, if_neg hpy, hdk] at hcp
              exact copy_dir_exact rest _ d2 n cs hdn.2 hcp hlook2 hnp

theorem copy_pycache_untouched : ∀ (staging dst d2 : EntryList) (cs : EntryList),
    distinctNames staging = true → copyItems staging dst = (true, d2) →
    lookupE staging pycacheName = some (FTree.dir cs) →
    lookupE d2 pycacheName = lookupE dst pycacheName
  | EntryList.nil, _, _, cs, _, _, hlook => by simp [lookupE] at hlook
  | EntryList.cons k t rest, dst, d2, cs, hdn, hcp, hlook => by
    simp only [distinctNames, Bool.and_eq_true, Option.isNone_iff_eq_none] at hdn
    by_cases hk : k = pycacheName
    · subst hk
      have ht : t = FTree.dir cs := by simpa [lookupE] using hlook
      subst ht
      simp only [copyItems, if_pos rfl] at hcp
      exact copy_frame rest dst d2 pycacheName hcp hdn.1
    · have hlook2 : lookupE rest pycacheName = some (FTree.dir cs) := by
        simpa [lookupE, hk] using hlook
      cases t with
      | file d =>
        cases hdk : lookupE dst k with
        | none =>
          simp only [copyItems, hdk] at hcp
          rw [copy_pycache_untouched rest _ d2 cs hdn.2 hcp hlook2,
            lookupE_setE_ne dst k pycacheName _ hk]
        | some u =>
          cases u with
          | file d0 =>
            simp only [copyItems, hdk] at hcp
            rw [copy_pycache_untouched rest _ d2 cs hdn.2 hcp hlook2,
              lookupE_setE_ne dst k pycacheName _ hk]
          | dir es =>
            simp only [copyItems, hdk] at hcp
            rw [copy_pycache_untouched rest _ d2 cs hdn.2 hcp hlook2,
              lookupE_setE_ne dst k pycacheName _ hk]
      | dir cs0 =>
        cases hdk : lookupE dst k with
        | none =>
          simp only [copyItems, if_neg hk, hdk] at hcp
          rw [copy_pycache_untouched rest _ d2 cs hdn.2 hcp hlook2,
            lookupE_setE_ne dst k pycacheName _ hk]
        | some u =>
          cases u with
          | file d0 =>
            simp only [copyItems, if_neg hk, hdk] at hcp
            exact absurd hcp (by simp)
          | dir es =>
            simp only [copyItems, if_neg hk, hdk] at hcp
            rw [copy_pycache_untouched rest _ d2 cs hdn.2 hcp hlook2,
              lookupE_setE_ne dst k pycacheName _ hk]

theorem copy_file_placed : ∀ (staging dst d2 : EntryList) (n : String) (d : Nat),
    distinctNames staging = true → copyItems staging dst = (true, d2) →
    lookupE staging n = some (FTree.file d) →
    (∀ es, lookupE dst n ≠ some (FTree.dir es)) →
    lookupE d2 n = some (FTree.file d)
  | EntryList.nil, _, _, n, d, _, _, hlook, _ => by simp [lookupE] at hlook
  | EntryList.cons k t rest, dst, d2, n, d, hdn, hcp, hlook, hnd => by
    simp only [distinctNames, Bool.and_eq_true, Option.isNone_iff_eq_none] at hdn
    by_cases hk : k = n
    · subst hk
      have ht : t = FTree.file d := by simpa [lookupE] using hlook
      subst ht
      cases hdk : lookupE dst k with
      | none =>
        simp only [copyItems, hdk] at hcp
        rw [copy_frame rest _ d2 k hcp hdn.1, lookupE_setE_same]
      | some u =>
        cases u with
        | file d0 =>
          simp only [copyItems, hdk] at hcp
          rw [copy_frame rest _ d2 k hcp hdn.1, lookupE_setE_same]
        | dir es => exact absurd hdk (hnd es)
    · have hlook2 : lookupE rest n = some (FTree.file d) := by simpa [lookupE, hk] using hlook
      have hnd2 : ∀ (v : FTree) (es : EntryList),
          lookupE (setE dst k v) n ≠ some (FTree.dir es) := by
        intro v es
        rw [lookupE_setE_ne dst k n v hk]
        exact hnd es
      cases t with
      | file d0 =>
        cases hdk : lookupE dst k with
        | none =>
          simp only [copyItems, hdk] at hcp
          exact copy_file_placed rest _ d2 n d hdn.2 hcp hlook2 (hnd2 _)
        | some u =>
          cases u with
          | file d1 =>
            simp only [copyItems, hdk] at hcp
            exact copy_file_placed rest _ d2 n d hdn.2 hcp hlook2 (hnd2 _)
          | dir es =>
            simp only [copyItems, hdk] at hcp
            exact copy_file_placed rest _ d2 n d hdn.2 hcp hlook2 (hnd2 _)
      | dir cs0 =>
        by_cases hpy : k = pycacheName
        · simp only [copyItems, if_pos hpy] at hcp
          exact copy_file_placed rest dst d2 n d hdn.2 hcp hlook2 hnd
        · cases hdk : lookupE dst k with
          | none =>
            simp only [copyItems, if_neg hpy, hdk] at hcp
            exact copy_file_placed rest _ d2 n d hdn.2 hcp hlook2 (hnd2 _)
          | some u =>
            cases u with
            | file d1 =>
              simp only [copyItems, if_neg hpy, hdk] at hcp
              exact absurd hcp (by simp)
            | dir es =>
              simp only [copyItems, if_neg hpy, hdk] at hcp
              exact copy_file_placed rest _ d2 n d hdn.2 hcp hlook2 (hnd2 _)

/-- Claim C6: the copy-to-target step copies every staging entry into the
install target: a staged directory other than `__pycache__` replaces any
same-named destination directory wholesale (the destination is deleted first,
so afterwards its contents equal exactly the incoming directory's contents,
stale siblings removed); a staged directory named `__pycache__` is skipped and
the destination entry left untouched; staged files are copied — content and
metadata, both part of the opaque file datum — over same-named destination
files; and destination entries with no staged counterpart are unchanged. -/
theorem copy_replaces_dirs_and_skips_pycache (staging dst d2 : EntryList)
    (hdn : distinctNames staging = true)
    (hcp : copy_files_to_install_dir staging dst = (true, d2)) :
    (∀ n, lookupE staging n = none → lookupE d2 n = lookupE dst n)
  ∧ (∀ n cs, lookupE staging n = some (FTree.dir cs) → ¬ n = pycacheName →
      lookupE d2 n = some (FTree.dir cs))
  ∧ (∀ cs, lookupE staging pycacheName = some (FTree.dir cs) →
      lookupE d2 pycacheName = lookupE dst pycacheName)
  ∧ (∀ n d, lookupE staging n = some (FTree.file d) →
      (∀ es, lookupE dst n ≠ some (FTree.dir es)) →
      lookupE d2 n = some (FTree.file d)) :=
  ⟨fun n hno => copy_frame staging dst d2 n hcp hno,
   fun n cs hl hnp => copy_dir_exact staging dst d2 n cs hdn hcp hl hnp,
   fun cs hl => copy_pycache_untouched staging dst d2 cs hdn hcp hl,
   fun n d hl hnd => copy_file_placed staging dst d2 n d hdn hcp hl hnd⟩

theorem copy_replaces_dirs_and_skips_pycache_witness :
    lookupE (copy_files_to_install_dir stagingW dstW).2 configName = some (FTree.dir gsW) ∧
    lookupE (copy_files_to_install_dir stagingW dstW).2 pycacheName
      = lookupE dstW pycacheName := by
  have h := copy_replaces_dirs_and_skips_pycache stagingW dstW
      (copy_files_to_install_dir stagingW dstW).2 rfl rfl
  exact ⟨h.2.1 configName gsW rfl (by decide), h.2.2.1 EntryList.nil rfl⟩

end Installer
